import Mathlib

/-!
Verification of the MyBatis mapper XML parser
(`backend/plugin/parser/mybatis/parser.go`).

The parser consumes a stream of XML events (start-element, end-element,
character data, comment) and builds an AST without recursion, using an
explicit start-element stack and node stack.  The AST node types and the
data-segment tokenizer live in the `ast` sub-package, which is not part of
the surveyed sources; those parts are modelled from the specification and
are marked as such in their doc comments.
-/

set_option maxRecDepth 4000

namespace Mybatis

/-- Placeholder style: `#` is a bind parameter, `$` is raw string
substitution.  Modelled from the spec: the `Segment` variants produced by
the `ast` package's data tokenizer. -/
inductive Style where
  | bind
  | substitution
deriving DecidableEq, Repr

/-- Modelled from the spec: a tokenized segment of a character-data chunk,
either literal SQL text or a placeholder carrying the raw inner expression
text and the opener style. -/
inductive Segment where
  | literal (text : String)
  | placeholder (expr : String) (style : Style)
deriving DecidableEq, Repr

/-- Modelled from the spec: the data-segment tokenizer's error. -/
inductive ScanError where
  | unterminatedPlaceholder
deriving DecidableEq, Repr

/-- Emit the accumulated run of plain bytes (kept in reverse order) as a
`Literal` segment, or nothing when the run is empty. -/
def flushLiteral (acc : List Char) : List Segment :=
  if acc.isEmpty then [] else [Segment.literal (String.mk acc.reverse)]

/-- Scanner mode: accumulating plain bytes, or inside a placeholder that
was opened by a given style. -/
inductive ScanMode where
  | plain
  | placeholder (style : Style)
deriving DecidableEq, Repr

/-- Modelled from the spec: the single left-to-right scan of the data
tokenizer (`ast.DataNode.Scan`, not under the surveyed sources).  At each
position it detects the two-character openers, emits the preceding
accumulated plain-byte run (if any) as a `Literal`, consumes up to the
matching close brace to emit a `Placeholder`, and fails with
`UnterminatedPlaceholder` when the input ends mid-placeholder. -/
def scanAux : ScanMode → List Char → List Char → Except ScanError (List Segment)
  | ScanMode.plain, acc, [] => Except.ok (flushLiteral acc)
  | ScanMode.placeholder _, _, [] => Except.error ScanError.unterminatedPlaceholder
  | ScanMode.plain, acc, c :: rest =>
    if c == '#' || c == '$' then
      match rest with
      | [] => scanAux ScanMode.plain (c :: acc) []
      | c2 :: rest2 =>
        if c2 == '{' then
          Except.map (fun segs => flushLiteral acc ++ segs)
            (scanAux (ScanMode.placeholder (if c == '#' then Style.bind else Style.substitution)) [] rest2)
        else scanAux ScanMode.plain (c :: acc) (c2 :: rest2)
    else scanAux ScanMode.plain (c :: acc) rest
  | ScanMode.placeholder st, acc, c :: rest =>
    if c == '}' then
      Except.map (fun segs => Segment.placeholder (String.mk acc.reverse) st :: segs)
        (scanAux ScanMode.plain [] rest)
    else scanAux (ScanMode.placeholder st) (c :: acc) rest

/-- Modelled from the spec: `scan(bytes)`, the entry point of the
data-segment tokenizer. -/
def scan (l : List Char) : Except ScanError (List Segment) :=
  scanAux ScanMode.plain [] l

/-- True when the character list contains no `#`-brace or `$`-brace
placeholder opener. -/
def openerFree : List Char → Bool
  | [] => true
  | c :: rest => (!((c == '#' || c == '$') && rest.head? == some '{')) && openerFree rest

/-- Whitespace predicate of Go's `unicode.IsSpace` restricted to the
code points it accepts in Latin-1. -/
def isSpaceChar (c : Char) : Bool :=
  c == ' ' || c == '\t' || c == '\n' || c == '\x0b' || c == '\x0c' || c == '\r' ||
    c == '\u0085' || c == '\u00A0'

/-- Go's `strings.TrimSpace`: drop leading and trailing whitespace. -/
def trimSpace (l : List Char) : List Char :=
  ((l.dropWhile isSpaceChar).reverse.dropWhile isSpaceChar).reverse

/-- Number of newline bytes in a raw character-data or comment chunk. -/
def countNewlines (l : List Char) : Nat :=
  l.count '\n'

/-- An `xml.StartElement`: local name plus attribute list (attribute local
name paired with its value). -/
structure StartElement where
  name : String
  attrs : List (String × String)
deriving DecidableEq, Repr

/-- One token produced by the streaming XML decoder (`xml.Decoder.Token`):
start element, end element, character data, or comment.  End of input is
the end of the event list. -/
inductive Event where
  | startElement (e : StartElement)
  | endElement (name : String)
  | charData (s : List Char)
  | comment (s : List Char)
deriving DecidableEq, Repr

/-- Modelled from the spec: the node kinds of the `ast` package.  `query`
carries the operation kind (the element name `select`, `update`, `insert`
or `delete`). -/
inductive NodeKind where
  | root
  | mapper
  | query (op : String)
  | ifKind
  | choose
  | whenKind
  | otherwise
  | empty
deriving DecidableEq, Repr

/-- Whether the node kind is the `Empty` placeholder kind. -/
def NodeKind.isEmptyKind : NodeKind → Bool
  | NodeKind.empty => true
  | _ => false

/-- Modelled from the spec: an AST node.  Element-like nodes own an ordered
child sequence (insertion order is document order); `Data` nodes are leaves
carrying the trimmed bytes and their tokenized segments. -/
inductive Node where
  | elem (kind : NodeKind) (attrs : List (String × String)) (children : List Node)
  | data (content : List Char) (segments : List Segment)
deriving Repr

/-- Modelled from the spec: `AddChild` appends a node as the last child.
`Data` nodes are leaves and have no child sequence. -/
def Node.addChild : Node → Node → Node
  | Node.elem k a c, child => Node.elem k a (c ++ [child])
  | Node.data t s, _ => Node.data t s

/-- Append a batch of children at the end of a node's child sequence. -/
def Node.appendChildren : Node → List Node → Node
  | Node.elem k a c, xs => Node.elem k a (c ++ xs)
  | Node.data t s, _ => Node.data t s

/-- The type-assertion check `popNode.(*ast.EmptyNode)` of the parser. -/
def isEmptyNode : Node → Bool
  | Node.elem k _ _ => k.isEmptyKind
  | Node.data _ _ => false

/-- Dispatch table of `newNodeByStartElement`: start-element local name to
node constructor; unrecognized names yield an `Empty` node. -/
def newNodeByStartElement (e : StartElement) : Node :=
  match e.name with
  | "mapper" => Node.elem NodeKind.mapper e.attrs []
  | "select" | "update" | "insert" | "delete" => Node.elem (NodeKind.query e.name) e.attrs []
  | "if" => Node.elem NodeKind.ifKind e.attrs []
  | "choose" => Node.elem NodeKind.choose e.attrs []
  | "when" => Node.elem NodeKind.whenKind e.attrs []
  | "otherwise" => Node.elem NodeKind.otherwise e.attrs []
  | _ => Node.elem NodeKind.empty [] []

/-- The element names the dispatch table of `newNodeByStartElement`
recognizes. -/
def knownName (s : String) : Bool :=
  s == "mapper" || s == "select" || s == "update" || s == "insert" || s == "delete" ||
    s == "if" || s == "choose" || s == "when" || s == "otherwise"

/-- The errors `Parse` can return.  `indexOutOfRange` stands for the Go
runtime panic that an out-of-range slice index in the end-element handler
would raise; the balance invariant shows it is unreachable. -/
inductive ParseError where
  | unexpectedEndElement (name : String)
  | tagMismatch (expected : String) (actual : String)
  | unterminatedElement (name : String)
  | dataScanError (e : ScanError)
  | nodeStackEmpty
  | indexOutOfRange
deriving DecidableEq, Repr

/-- Modelled from the spec: rendering of the tokenizer error message. -/
def ScanError.message : ScanError → String
  | ScanError.unterminatedPlaceholder => "unterminated placeholder"

/-- The error message strings of `Parse` (its `errors.Errorf` /
`errors.Wrapf` format strings, with `%q` rendered as double quotes). -/
def ParseError.message : ParseError → String
  | ParseError.unexpectedEndElement n => "unexpected end element \"" ++ n ++ "\""
  | ParseError.tagMismatch e a =>
      "expected to read the name of end element is \"" ++ e ++ "\", but got \"" ++ a ++ "\""
  | ParseError.unterminatedElement n =>
      "expected to read the end element of \"" ++ n ++ "\", but got EOF"
  | ParseError.dataScanError e => "cannot parse data node: " ++ e.message
  | ParseError.nodeStackEmpty => "try to append data node to parent node, but node stack is empty"
  | ParseError.indexOutOfRange => "runtime error: index out of range"

/-- The mutable state of `Parse`: the two stacks (head of the list is the
top of the stack, so the Go slice index 0 is the last list entry) and the
parser's current-line counter. -/
structure ParseState where
  startElementStack : List StartElement
  nodeStack : List Node
  currentLine : Nat
deriving Repr

/-- One iteration of the token loop of `Parse` for a single decoded event:
the four `switch` arms of the source. -/
def step (p : ParseState) (ev : Event) : Except ParseError ParseState :=
  match ev with
  | Event.startElement e =>
      Except.ok { startElementStack := e :: p.startElementStack,
                  nodeStack := newNodeByStartElement e :: p.nodeStack,
                  currentLine := p.currentLine }
  | Event.endElement name =>
      match p.startElementStack with
      | [] => Except.error (ParseError.unexpectedEndElement name)
      | top :: restElems =>
          if name = top.name then
            match p.nodeStack with
            | [] => Except.error ParseError.indexOutOfRange
            | popNode :: restNodes =>
                if isEmptyNode popNode then
                  Except.ok { startElementStack := restElems,
                              nodeStack := restNodes,
                              currentLine := p.currentLine }
                else
                  match restNodes with
                  | [] => Except.error ParseError.indexOutOfRange
                  | parent :: ns =>
                      Except.ok { startElementStack := restElems,
                                  nodeStack := parent.addChild popNode :: ns,
                                  currentLine := p.currentLine }
          else Except.error (ParseError.tagMismatch top.name name)
  | Event.charData s =>
      let newLine := p.currentLine + countNewlines s
      let trimmed := trimSpace s
      if trimmed = [] then
        Except.ok { p with currentLine := newLine }
      else
        match scan trimmed with
        | Except.error e => Except.error (ParseError.dataScanError e)
        | Except.ok segs =>
            match p.nodeStack with
            | [] => Except.error ParseError.nodeStackEmpty
            | n :: ns =>
                Except.ok { startElementStack := p.startElementStack,
                            nodeStack := n.addChild (Node.data trimmed segs) :: ns,
                            currentLine := newLine }
  | Event.comment s =>
      Except.ok { p with currentLine := p.currentLine + countNewlines s }

/-- The state at the start of `Parse`: empty element stack, the fresh
`Root` node alone on the node stack, line counter zero. -/
def initState : ParseState :=
  { startElementStack := [], nodeStack := [Node.elem NodeKind.root [] []], currentLine := 0 }

/-- The `io.EOF` arm of `Parse`: with an empty element stack return the
root (the bottom of the node stack); otherwise fail naming the innermost
still-open element. -/
def finish (p : ParseState) : Except ParseError Node :=
  match p.startElementStack with
  | [] => Except.ok (p.nodeStack.getLastD (Node.elem NodeKind.root [] []))
  | top :: _ => Except.error (ParseError.unterminatedElement top.name)

/-- The token loop of `Parse` over the remaining event list, ending with
the `io.EOF` arm. -/
def parseLoop : ParseState → List Event → Except ParseError Node
  | p, [] => finish p
  | p, ev :: rest =>
      match step p ev with
      | Except.error e => Except.error e
      | Except.ok p1 => parseLoop p1 rest

/-- `Parse`: run the token loop from the initial state. -/
def parse (events : List Event) : Except ParseError Node :=
  parseLoop initState events

/-- Run the token loop without the end-of-input arm, returning the state
reached after consuming the given events. -/
def runSteps : ParseState → List Event → Except ParseError ParseState
  | p, [] => Except.ok p
  | p, ev :: rest =>
      match step p ev with
      | Except.error e => Except.error e
      | Except.ok p1 => runSteps p1 rest

mutual

/-- True when the node is not an `Empty` node and no `Empty` node occurs
anywhere in its subtree. -/
def hasNoEmpty : Node → Bool
  | Node.data _ _ => true
  | Node.elem k _ cs => (!k.isEmptyKind) && hasNoEmptyList cs

/-- `hasNoEmpty` for every node of a list. -/
def hasNoEmptyList : List Node → Bool
  | [] => true
  | n :: ns => hasNoEmpty n && hasNoEmptyList ns

end

/-- True when no `Empty` node occurs strictly inside the node (the node
itself may be of any kind). -/
def cleanChildren : Node → Bool
  | Node.data _ _ => true
  | Node.elem _ _ cs => hasNoEmptyList cs

/-- The reachable-state invariant of the parser loop: the node stack is one
longer than the element stack, the bottom of the node stack is the `Root`
node, and no node on the stack has an `Empty` node inside its subtree. -/
def Inv (p : ParseState) : Prop :=
  p.nodeStack.length = p.startElementStack.length + 1 ∧
  (∃ c, p.nodeStack.getLast? = some (Node.elem NodeKind.root [] c)) ∧
  p.nodeStack.all cleanChildren = true

/-- Append extra children to the node at the top of a node stack. -/
def headAppendChildren : List Node → List Node → List Node
  | [], _ => []
  | n :: ns, extra => n.appendChildren extra :: ns

/-- Exact change an event makes to the current-line counter: the newline
count of the raw chunk for character data and comments, zero otherwise. -/
def lineDelta : Event → Nat
  | Event.charData s => countNewlines s
  | Event.comment s => countNewlines s
  | Event.startElement _ => 0
  | Event.endElement _ => 0

/-- Detector for the character-data arm's node-stack-empty error. -/
def isNodeStackEmptyError {α : Type} : Except ParseError α → Bool
  | Except.error ParseError.nodeStackEmpty => true
  | _ => false

/-- A well-formed event stream: a sequence of character data, comments and
complete elements whose end tag matches their start tag. -/
inductive Balanced : List Event → Prop
  | nil : Balanced []
  | data (s : List Char) (rest : List Event) : Balanced rest →
      Balanced (Event.charData s :: rest)
  | comment (s : List Char) (rest : List Event) : Balanced rest →
      Balanced (Event.comment s :: rest)
  | elem (e : StartElement) (inner rest : List Event) :
      Balanced inner → Balanced rest →
      Balanced (Event.startElement e :: (inner ++ Event.endElement e.name :: rest))

/-! ### Tokenizer lemmas -/

theorem except_map_map {α β γ ε : Type} (f : β → γ) (g : α → β) (x : Except ε α) :
    Except.map f (Except.map g x) = Except.map (fun a => f (g a)) x := by
  cases x <;> rfl

theorem except_map_error {α β ε : Type} (f : α → β) (e : ε) :
    Except.map f (Except.error e : Except ε α) = Except.error e := rfl

theorem scanAux_plain_cons_nonop (acc : List Char) (c : Char) (rest : List Char)
    (hc : (c == '#' || c == '$') = false) :
    scanAux ScanMode.plain acc (c :: rest) = scanAux ScanMode.plain (c :: acc) rest := by
  cases rest <;> simp [scanAux, hc]

theorem scanAux_plain_opchar_nil (acc : List Char) (c : Char) :
    scanAux ScanMode.plain acc [c] = scanAux ScanMode.plain (c :: acc) [] := by
  simp [scanAux]

theorem scanAux_plain_opchar_nobrace (acc : List Char) (c c2 : Char) (rest2 : List Char)
    (hx : (c2 == '{') = false) :
    scanAux ScanMode.plain acc (c :: c2 :: rest2) =
      scanAux ScanMode.plain (c :: acc) (c2 :: rest2) := by
  by_cases hc : (c == '#' || c == '$') = true
  · simp [scanAux, hc, hx]
  · rw [Bool.not_eq_true] at hc
    simp [scanAux, hc]

theorem scanAux_plain_opener (acc : List Char) (c : Char) (rest2 : List Char)
    (hc : (c == '#' || c == '$') = true) :
    scanAux ScanMode.plain acc (c :: '{' :: rest2) =
      Except.map (fun segs => flushLiteral acc ++ segs)
        (scanAux (ScanMode.placeholder (if c == '#' then Style.bind else Style.substitution))
          [] rest2) := by
  simp [scanAux, hc]

theorem scanAux_ph_cons_close (acc : List Char) (st : Style) (rest : List Char) :
    scanAux (ScanMode.placeholder st) acc ('}' :: rest) =
      Except.map (fun segs => Segment.placeholder (String.mk acc.reverse) st :: segs)
        (scanAux ScanMode.plain [] rest) := by
  simp [scanAux]

theorem scanAux_ph_cons_other (acc : List Char) (st : Style) (c : Char) (rest : List Char)
    (hc : (c == '}') = false) :
    scanAux (ScanMode.placeholder st) acc (c :: rest) =
      scanAux (ScanMode.placeholder st) (c :: acc) rest := by
  simp [scanAux, hc]

theorem scanAux_plain_append :
    ∀ (pre l acc : List Char), openerFree pre = true → l.head? ≠ some '{' →
      scanAux ScanMode.plain acc (pre ++ l) = scanAux ScanMode.plain (pre.reverse ++ acc) l := by
  intro pre
  induction pre with
  | nil => intro l acc _ _; simp
  | cons c pre' ih =>
    intro l acc h hl
    rw [openerFree, Bool.and_eq_true, Bool.not_eq_true'] at h
    obtain ⟨h1, h2⟩ := h
    show scanAux ScanMode.plain acc (c :: (pre' ++ l)) = _
    by_cases hc : (c == '#' || c == '$') = true
    · rw [hc, Bool.true_and] at h1
      cases hp : pre' with
      | nil =>
        subst hp
        cases l with
        | nil => rw [show ([] : List Char) ++ [] = [] from rfl, scanAux_plain_opchar_nil]; simp
        | cons x xs =>
          have hx : (x == '{') = false := by
            rcases hxx : x == '{' with _ | _
            · rfl
            · exact absurd (by simp at hxx; simp [hxx]) hl
          rw [show ([] : List Char) ++ x :: xs = x :: xs from rfl]
          rw [scanAux_plain_opchar_nobrace acc c x xs hx]
          simp
      | cons c2 pre'' =>
        have hx : (c2 == '{') = false := by
          subst hp; simpa using h1
        subst hp
        rw [show (c2 :: pre'') ++ l = c2 :: (pre'' ++ l) from rfl]
        rw [scanAux_plain_opchar_nobrace acc c c2 (pre'' ++ l) hx]
        rw [show c2 :: (pre'' ++ l) = (c2 :: pre'') ++ l from rfl]
        rw [ih l (c :: acc) h2 hl]
        simp
    · rw [Bool.not_eq_true] at hc
      rw [scanAux_plain_cons_nonop acc c (pre' ++ l) hc]
      rw [ih l (c :: acc) h2 hl]
      simp

theorem scanAux_placeholder_close :
    ∀ (inner acc : List Char) (st : Style) (rest : List Char), '}' ∉ inner →
      scanAux (ScanMode.placeholder st) acc (inner ++ '}' :: rest) =
        Except.map
          (fun segs => Segment.placeholder (String.mk (acc.reverse ++ inner)) st :: segs)
          (scanAux ScanMode.plain [] rest) := by
  intro inner
  induction inner with
  | nil => intro acc st rest _; rw [List.nil_append, scanAux_ph_cons_close]; simp
  | cons c inner' ih =>
    intro acc st rest h
    have hc : (c == '}') = false := by
      rcases hxx : c == '}' with _ | _
      · rfl
      · exact absurd (by simp at hxx; simp [hxx]) h
    rw [show (c :: inner') ++ '}' :: rest = c :: (inner' ++ '}' :: rest) from rfl]
    rw [scanAux_ph_cons_other acc st c _ hc]
    rw [ih (c :: acc) st rest (fun hm => h (List.mem_cons_of_mem c hm))]
    simp

theorem scanAux_placeholder_unterminated :
    ∀ (l acc : List Char) (st : Style), '}' ∉ l →
      scanAux (ScanMode.placeholder st) acc l = Except.error ScanError.unterminatedPlaceholder := by
  intro l
  induction l with
  | nil => intro acc st _; simp [scanAux]
  | cons c l' ih =>
    intro acc st h
    have hc : (c == '}') = false := by
      rcases hxx : c == '}' with _ | _
      · rfl
      · exact absurd (by simp at hxx; simp [hxx]) h
    rw [scanAux_ph_cons_other acc st c l' hc]
    exact ih (c :: acc) st (fun hm => h (List.mem_cons_of_mem c hm))

theorem flushLiteral_reverse (l : List Char) :
    flushLiteral l.reverse = if l = [] then [] else [Segment.literal (String.mk l)] := by
  by_cases h : l = []
  · subst h; simp [flushLiteral]
  · simp [flushLiteral, h]

theorem scan_openerFree (l : List Char) (h : openerFree l = true) :
    scan l = Except.ok (if l = [] then [] else [Segment.literal (String.mk l)]) := by
  have h2 := scanAux_plain_append l [] [] h (by simp)
  simp only [List.append_nil] at h2
  rw [scan, h2, scanAux, flushLiteral_reverse]

theorem opener_head_ne (c : Char) (hc : (c == '#' || c == '$') = true) (l : List Char) :
    ((c :: l).head? : Option Char) ≠ some '{' := by
  intro heq
  simp only [List.head?, Option.some.injEq] at heq
  subst heq
  simp at hc

theorem scan_opener (pre inner rest : List Char) (c : Char)
    (hc : (c == '#' || c == '$') = true)
    (hp : openerFree pre = true) (hi : '}' ∉ inner) :
    scan (pre ++ c :: '{' :: (inner ++ '}' :: rest)) =
      Except.map
        (fun segs =>
          (if pre = [] then [] else [Segment.literal (String.mk pre)]) ++
            Segment.placeholder (String.mk inner)
              (if c == '#' then Style.bind else Style.substitution) :: segs)
        (scan rest) := by
  rw [scan, scanAux_plain_append pre _ [] hp (opener_head_ne c hc _)]
  simp only [scanAux, hc, if_true, beq_self_eq_true]
  rw [scanAux_placeholder_close inner [] _ rest hi]
  rw [except_map_map]
  rw [scan]
  congr 1
  funext segs
  simp [flushLiteral_reverse]

theorem scan_opener_unterminated (pre t : List Char) (c : Char)
    (hc : (c == '#' || c == '$') = true)
    (hp : openerFree pre = true) (ht : '}' ∉ t) :
    scan (pre ++ c :: '{' :: t) = Except.error ScanError.unterminatedPlaceholder := by
  rw [scan, scanAux_plain_append pre _ [] hp (opener_head_ne c hc _)]
  simp only [scanAux, hc, if_true, beq_self_eq_true]
  rw [scanAux_placeholder_unterminated t [] _ ht]
  rfl

/-! ### Step and loop lemmas -/

theorem step_start (S : List StartElement) (N : List Node) (L : Nat) (e : StartElement) :
    step ⟨S, N, L⟩ (Event.startElement e) =
      Except.ok ⟨e :: S, newNodeByStartElement e :: N, L⟩ := rfl

theorem step_end_emptyStack (N : List Node) (L : Nat) (name : String) :
    step ⟨[], N, L⟩ (Event.endElement name) =
      Except.error (ParseError.unexpectedEndElement name) := rfl

theorem step_end_mismatch (top : StartElement) (restS : List StartElement) (N : List Node)
    (L : Nat) (name : String) (h : name ≠ top.name) :
    step ⟨top :: restS, N, L⟩ (Event.endElement name) =
      Except.error (ParseError.tagMismatch top.name name) := by
  simp [step, h]

theorem step_end_match_empty (top : StartElement) (restS : List StartElement)
    (popNode : Node) (restN : List Node) (L : Nat) (h : isEmptyNode popNode = true) :
    step ⟨top :: restS, popNode :: restN, L⟩ (Event.endElement top.name) =
      Except.ok ⟨restS, restN, L⟩ := by
  simp [step, h]

theorem step_end_match_attach (top : StartElement) (restS : List StartElement)
    (popNode parent : Node) (ns : List Node) (L : Nat) (h : isEmptyNode popNode = false) :
    step ⟨top :: restS, popNode :: parent :: ns, L⟩ (Event.endElement top.name) =
      Except.ok ⟨restS, parent.addChild popNode :: ns, L⟩ := by
  simp [step, h]

theorem step_end_match_underflow (top : StartElement) (restS : List StartElement)
    (popNode : Node) (L : Nat) (h : isEmptyNode popNode = false) :
    step ⟨top :: restS, [popNode], L⟩ (Event.endElement top.name) =
      Except.error ParseError.indexOutOfRange := by
  simp [step, h]

theorem step_end_match_emptyN (top : StartElement) (restS : List StartElement) (L : Nat) :
    step ⟨top :: restS, [], L⟩ (Event.endElement top.name) =
      Except.error ParseError.indexOutOfRange := by
  simp [step]

theorem step_charData_ws (S : List StartElement) (N : List Node) (L : Nat) (s : List Char)
    (h : trimSpace s = []) :
    step ⟨S, N, L⟩ (Event.charData s) = Except.ok ⟨S, N, L + countNewlines s⟩ := by
  simp [step, h]

theorem step_charData_scanError (S : List StartElement) (N : List Node) (L : Nat)
    (s : List Char) (e : ScanError) (h1 : trimSpace s ≠ []) (h2 : scan (trimSpace s) = Except.error e) :
    step ⟨S, N, L⟩ (Event.charData s) = Except.error (ParseError.dataScanError e) := by
  simp [step, h1, h2]

theorem step_charData_emptyN (S : List StartElement) (L : Nat) (s : List Char)
    (segs : List Segment) (h1 : trimSpace s ≠ []) (h2 : scan (trimSpace s) = Except.ok segs) :
    step ⟨S, [], L⟩ (Event.charData s) = Except.error ParseError.nodeStackEmpty := by
  simp [step, h1, h2]

theorem step_charData_ok (S : List StartElement) (n : Node) (ns : List Node) (L : Nat)
    (s : List Char) (segs : List Segment)
    (h1 : trimSpace s ≠ []) (h2 : scan (trimSpace s) = Except.ok segs) :
    step ⟨S, n :: ns, L⟩ (Event.charData s) =
      Except.ok ⟨S, n.addChild (Node.data (trimSpace s) segs) :: ns, L + countNewlines s⟩ := by
  simp [step, h1, h2]

theorem step_comment (S : List StartElement) (N : List Node) (L : Nat) (s : List Char) :
    step ⟨S, N, L⟩ (Event.comment s) = Except.ok ⟨S, N, L + countNewlines s⟩ := rfl

theorem runSteps_append (xs : List Event) :
    ∀ (p : ParseState) (ys : List Event),
      runSteps p (xs ++ ys) =
        match runSteps p xs with
        | Except.error e => Except.error e
        | Except.ok q => runSteps q ys := by
  induction xs with
  | nil => intro p ys; rfl
  | cons ev xs' ih =>
    intro p ys
    rw [List.cons_append]
    show (match step p ev with
          | Except.error e => Except.error e
          | Except.ok p1 => runSteps p1 (xs' ++ ys)) = _
    rw [show runSteps p (ev :: xs') =
        (match step p ev with
         | Except.error e => Except.error e
         | Except.ok p1 => runSteps p1 xs') from rfl]
    cases step p ev with
    | error e => rfl
    | ok p1 => exact ih p1 ys

theorem parseLoop_eq_runSteps (evs : List Event) :
    ∀ (p : ParseState),
      parseLoop p evs =
        match runSteps p evs with
        | Except.error e => Except.error e
        | Except.ok q => finish q := by
  induction evs with
  | nil => intro p; rfl
  | cons ev evs' ih =>
    intro p
    show (match step p ev with
          | Except.error e => Except.error e
          | Except.ok p1 => parseLoop p1 evs') = _
    rw [show runSteps p (ev :: evs') =
        (match step p ev with
         | Except.error e => Except.error e
         | Except.ok p1 => runSteps p1 evs') from rfl]
    cases step p ev with
    | error e => rfl
    | ok p1 => exact ih p1

theorem step_linePar (ev : Event) (S : List StartElement) (N : List Node) (L1 L2 : Nat) :
    (∃ e, step ⟨S, N, L1⟩ ev = Except.error e ∧ step ⟨S, N, L2⟩ ev = Except.error e) ∨
    (∃ S' N' d, step ⟨S, N, L1⟩ ev = Except.ok ⟨S', N', L1 + d⟩ ∧
      step ⟨S, N, L2⟩ ev = Except.ok ⟨S', N', L2 + d⟩) := by
  cases ev with
  | startElement e =>
    right
    exact ⟨e :: S, newNodeByStartElement e :: N, 0, by simp [step_start], by simp [step_start]⟩
  | endElement name =>
    cases S with
    | nil => left; exact ⟨_, step_end_emptyStack N L1 name, step_end_emptyStack N L2 name⟩
    | cons top restS =>
      by_cases hname : name = top.name
      · subst hname
        cases N with
        | nil =>
          left
          exact ⟨_, step_end_match_emptyN top restS L1, step_end_match_emptyN top restS L2⟩
        | cons popNode restN =>
          cases hemp : isEmptyNode popNode with
          | true =>
            right
            exact ⟨restS, restN, 0,
              by simpa using step_end_match_empty top restS popNode restN L1 hemp,
              by simpa using step_end_match_empty top restS popNode restN L2 hemp⟩
          | false =>
            cases restN with
            | nil =>
              left
              exact ⟨_, step_end_match_underflow top restS popNode L1 hemp,
                step_end_match_underflow top restS popNode L2 hemp⟩
            | cons parent ns =>
              right
              exact ⟨restS, parent.addChild popNode :: ns, 0,
                by simpa using step_end_match_attach top restS popNode parent ns L1 hemp,
                by simpa using step_end_match_attach top restS popNode parent ns L2 hemp⟩
      · left
        exact ⟨_, step_end_mismatch top restS N L1 name hname,
          step_end_mismatch top restS N L2 name hname⟩
  | charData s =>
    by_cases hws : trimSpace s = []
    · right
      exact ⟨S, N, countNewlines s, step_charData_ws S N L1 s hws, step_charData_ws S N L2 s hws⟩
    · cases hscan : scan (trimSpace s) with
      | error e =>
        left
        exact ⟨_, step_charData_scanError S N L1 s e hws hscan,
          step_charData_scanError S N L2 s e hws hscan⟩
      | ok segs =>
        cases N with
        | nil =>
          left
          exact ⟨_, step_charData_emptyN S L1 s segs hws hscan,
            step_charData_emptyN S L2 s segs hws hscan⟩
        | cons n ns =>
          right
          exact ⟨S, n.addChild (Node.data (trimSpace s) segs) :: ns, countNewlines s,
            step_charData_ok S n ns L1 s segs hws hscan,
            step_charData_ok S n ns L2 s segs hws hscan⟩
  | comment s =>
    right
    exact ⟨S, N, countNewlines s, step_comment S N L1 s, step_comment S N L2 s⟩

theorem parseLoop_line (evs : List Event) :
    ∀ (S : List StartElement) (N : List Node) (L1 L2 : Nat),
      parseLoop ⟨S, N, L1⟩ evs = parseLoop ⟨S, N, L2⟩ evs := by
  induction evs with
  | nil => intro S N L1 L2; rfl
  | cons ev evs' ih =>
    intro S N L1 L2
    show (match step ⟨S, N, L1⟩ ev with
          | Except.error e => Except.error e
          | Except.ok p1 => parseLoop p1 evs') =
        (match step ⟨S, N, L2⟩ ev with
          | Except.error e => Except.error e
          | Except.ok p1 => parseLoop p1 evs')
    rcases step_linePar ev S N L1 L2 with ⟨e, h1, h2⟩ | ⟨S', N', d, h1, h2⟩
    · rw [h1, h2]
    · rw [h1, h2]
      exact ih S' N' (L1 + d) (L2 + d)

theorem step_delta (p : ParseState) (ev : Event) (p' : ParseState)
    (h : step p ev = Except.ok p') : p'.currentLine = p.currentLine + lineDelta ev := by
  obtain ⟨S, N, L⟩ := p
  cases ev with
  | startElement e => rw [step_start] at h; cases h; simp [lineDelta]
  | endElement name =>
    cases S with
    | nil => rw [step_end_emptyStack] at h; cases h
    | cons top restS =>
      by_cases hname : name = top.name
      · subst hname
        cases N with
        | nil => rw [step_end_match_emptyN] at h; cases h
        | cons popNode restN =>
          cases hemp : isEmptyNode popNode with
          | true =>
            rw [step_end_match_empty top restS popNode restN L hemp] at h
            cases h; simp [lineDelta]
          | false =>
            cases restN with
            | nil => rw [step_end_match_underflow top restS popNode L hemp] at h; cases h
            | cons parent ns =>
              rw [step_end_match_attach top restS popNode parent ns L hemp] at h
              cases h; simp [lineDelta]
      · rw [step_end_mismatch top restS N L name hname] at h; cases h
  | charData s =>
    by_cases hws : trimSpace s = []
    · rw [step_charData_ws S N L s hws] at h; cases h; simp [lineDelta]
    · cases hscan : scan (trimSpace s) with
      | error e => rw [step_charData_scanError S N L s e hws hscan] at h; cases h
      | ok segs =>
        cases N with
        | nil => rw [step_charData_emptyN S L s segs hws hscan] at h; cases h
        | cons n ns =>
          rw [step_charData_ok S n ns L s segs hws hscan] at h
          cases h; simp [lineDelta]
  | comment s => rw [step_comment] at h; cases h; simp [lineDelta]

theorem runSteps_mono (evs : List Event) :
    ∀ (p p' : ParseState), runSteps p evs = Except.ok p' →
      p.currentLine ≤ p'.currentLine := by
  induction evs with
  | nil => intro p p' h; cases h; exact Nat.le_refl _
  | cons ev evs' ih =>
    intro p p' h
    rw [show runSteps p (ev :: evs') =
        (match step p ev with
         | Except.error e => Except.error e
         | Except.ok p1 => runSteps p1 evs') from rfl] at h
    cases hstep : step p ev with
    | error e => rw [hstep] at h; cases h
    | ok p1 =>
      rw [hstep] at h
      have h1 := step_delta p ev p1 hstep
      have h2 := ih p1 p' h
      omega

/-! ### Node and invariant lemmas -/

theorem getLast?_cons_of_ne_nil {α : Type} (a : α) (l : List α) (h : l ≠ []) :
    (a :: l).getLast? = l.getLast? := by
  cases l with
  | nil => exact absurd rfl h
  | cons b t => simp [List.getLast?]

theorem hasNoEmptyList_append (xs ys : List Node) :
    hasNoEmptyList (xs ++ ys) = (hasNoEmptyList xs && hasNoEmptyList ys) := by
  induction xs with
  | nil => simp [hasNoEmptyList]
  | cons n ns ih => simp [hasNoEmptyList, ih, Bool.and_assoc]

theorem addChild_elem (k : NodeKind) (a : List (String × String)) (c : List Node) (child : Node) :
    (Node.elem k a c).addChild child = Node.elem k a (c ++ [child]) := rfl

theorem appendChildren_nil (n : Node) : n.appendChildren [] = n := by
  cases n <;> simp [Node.appendChildren]

theorem addChild_appendChildren (n x : Node) (ys : List Node) :
    (n.addChild x).appendChildren ys = n.appendChildren (x :: ys) := by
  cases n <;> simp [Node.addChild, Node.appendChildren]

theorem isEmptyNode_appendChildren (n : Node) (xs : List Node) :
    isEmptyNode (n.appendChildren xs) = isEmptyNode n := by
  cases n <;> rfl

theorem headAppendChildren_nil (N : List Node) : headAppendChildren N [] = N := by
  cases N with
  | nil => rfl
  | cons n ns => simp [headAppendChildren, appendChildren_nil]

theorem cleanChildren_addChild (n child : Node) (hn : cleanChildren n = true)
    (hc : hasNoEmpty child = true) : cleanChildren (n.addChild child) = true := by
  cases n with
  | data t s => exact hn
  | elem k a c =>
    rw [addChild_elem]
    rw [cleanChildren] at hn ⊢
    rw [hasNoEmptyList_append, hn, hasNoEmptyList, hc, hasNoEmptyList]
    rfl

theorem hasNoEmpty_of (n : Node) (h1 : isEmptyNode n = false) (h2 : cleanChildren n = true) :
    hasNoEmpty n = true := by
  cases n with
  | data t s => rfl
  | elem k a c =>
    rw [isEmptyNode] at h1
    rw [cleanChildren] at h2
    rw [hasNoEmpty, h1, h2]
    rfl

theorem cleanChildren_data (t : List Char) (s : List Segment) :
    cleanChildren (Node.data t s) = true := rfl

theorem hasNoEmpty_data (t : List Char) (s : List Segment) :
    hasNoEmpty (Node.data t s) = true := rfl

theorem cleanChildren_newNode (e : StartElement) :
    cleanChildren (newNodeByStartElement e) = true := by
  unfold newNodeByStartElement
  split <;> rfl

theorem initState_inv : Inv initState := by
  refine ⟨rfl, ⟨[], rfl⟩, rfl⟩

theorem step_inv (p : ParseState) (ev : Event) (p' : ParseState) (hInv : Inv p)
    (h : step p ev = Except.ok p') : Inv p' := by
  obtain ⟨S, N, L⟩ := p
  obtain ⟨hlen, ⟨rc, hroot⟩, hclean⟩ := hInv
  simp only at hlen hroot hclean
  cases ev with
  | startElement e =>
    rw [step_start] at h
    cases h
    have hNne : N ≠ [] := by
      intro hN; rw [hN] at hlen; exact Nat.noConfusion hlen
    refine ⟨by simpa using hlen, ⟨rc, ?_⟩, ?_⟩
    · simpa [getLast?_cons_of_ne_nil _ N hNne] using hroot
    · simp only [List.all_cons, Bool.and_eq_true]
      exact ⟨cleanChildren_newNode e, hclean⟩
  | endElement name =>
    cases S with
    | nil => rw [step_end_emptyStack] at h; cases h
    | cons top restS =>
      by_cases hname : name = top.name
      · subst hname
        cases N with
        | nil => rw [step_end_match_emptyN] at h; cases h
        | cons popNode restN =>
          have hlen' : restN.length = restS.length + 1 := by
            simpa using hlen
          have hrestNne : restN ≠ [] := by
            intro hN; rw [hN] at hlen'; exact Nat.noConfusion hlen'
          rw [List.all_cons, Bool.and_eq_true] at hclean
          obtain ⟨hcleanPop, hcleanRest⟩ := hclean
          cases hemp : isEmptyNode popNode with
          | true =>
            rw [step_end_match_empty top restS popNode restN L hemp] at h
            cases h
            refine ⟨hlen', ⟨rc, ?_⟩, hcleanRest⟩
            rw [getLast?_cons_of_ne_nil popNode restN hrestNne] at hroot
            exact hroot
          | false =>
            cases restN with
            | nil => rw [step_end_match_underflow top restS popNode L hemp] at h; cases h
            | cons parent ns =>
              rw [step_end_match_attach top restS popNode parent ns L hemp] at h
              cases h
              rw [List.all_cons, Bool.and_eq_true] at hcleanRest
              obtain ⟨hcleanParent, hcleanNs⟩ := hcleanRest
              have hpopClean : hasNoEmpty popNode = true := hasNoEmpty_of popNode hemp hcleanPop
              have hattachClean : cleanChildren (parent.addChild popNode) = true :=
                cleanChildren_addChild parent popNode hcleanParent hpopClean
              have hall : (parent.addChild popNode :: ns).all cleanChildren = true := by
                simp only [List.all_cons, Bool.and_eq_true]
                exact ⟨hattachClean, hcleanNs⟩
              cases ns with
              | nil =>
                rw [getLast?_cons_of_ne_nil popNode [parent] (by simp)] at hroot
                simp only [List.getLast?, Option.some.injEq] at hroot
                subst hroot
                exact ⟨by simpa using hlen', ⟨rc ++ [popNode], rfl⟩, hall⟩
              | cons m ms =>
                rw [getLast?_cons_of_ne_nil popNode (parent :: m :: ms) (by simp),
                  getLast?_cons_of_ne_nil parent (m :: ms) (by simp)] at hroot
                refine ⟨by simpa using hlen', ⟨rc, ?_⟩, hall⟩
                rw [getLast?_cons_of_ne_nil (parent.addChild popNode) (m :: ms) (by simp)]
                exact hroot
      · rw [step_end_mismatch top restS N L name hname] at h; cases h
  | charData s =>
    by_cases hws : trimSpace s = []
    · rw [step_charData_ws S N L s hws] at h
      cases h
      exact ⟨hlen, ⟨rc, hroot⟩, hclean⟩
    · cases hscan : scan (trimSpace s) with
      | error e => rw [step_charData_scanError S N L s e hws hscan] at h; cases h
      | ok segs =>
        cases N with
        | nil => rw [step_charData_emptyN S L s segs hws hscan] at h; cases h
        | cons n ns =>
          rw [step_charData_ok S n ns L s segs hws hscan] at h
          cases h
          rw [List.all_cons, Bool.and_eq_true] at hclean
          obtain ⟨hcleanN, hcleanNs⟩ := hclean
          have hattachClean : cleanChildren (n.addChild (Node.data (trimSpace s) segs)) = true :=
            cleanChildren_addChild n _ hcleanN (hasNoEmpty_data _ _)
          have hall : (n.addChild (Node.data (trimSpace s) segs) :: ns).all cleanChildren = true := by
            simp only [List.all_cons, Bool.and_eq_true]
            exact ⟨hattachClean, hcleanNs⟩
          cases ns with
          | nil =>
            simp only [List.getLast?, Option.some.injEq] at hroot
            subst hroot
            exact ⟨by simpa using hlen, ⟨rc ++ [Node.data (trimSpace s) segs], rfl⟩, hall⟩
          | cons m ms =>
            rw [getLast?_cons_of_ne_nil n (m :: ms) (by simp)] at hroot
            refine ⟨by simpa using hlen, ⟨rc, ?_⟩, hall⟩
            rw [getLast?_cons_of_ne_nil (n.addChild (Node.data (trimSpace s) segs)) (m :: ms)
              (by simp)]
            exact hroot
  | comment s =>
    rw [step_comment] at h
    cases h
    exact ⟨hlen, ⟨rc, hroot⟩, hclean⟩

theorem runSteps_inv (evs : List Event) :
    ∀ (p p' : ParseState), Inv p → runSteps p evs = Except.ok p' → Inv p' := by
  induction evs with
  | nil => intro p p' hI h; cases h; exact hI
  | cons ev evs' ih =>
    intro p p' hI h
    rw [show runSteps p (ev :: evs') =
        (match step p ev with
         | Except.error e => Except.error e
         | Except.ok p1 => runSteps p1 evs') from rfl] at h
    cases hstep : step p ev with
    | error e => rw [hstep] at h; cases h
    | ok p1 =>
      rw [hstep] at h
      exact ih p1 p' (step_inv p ev p1 hI hstep) h

theorem runSteps_cons (p : ParseState) (ev : Event) (rest : List Event) :
    runSteps p (ev :: rest) =
      match step p ev with
      | Except.error e => Except.error e
      | Except.ok p1 => runSteps p1 rest := rfl

theorem runSteps_cons_ok (p : ParseState) (ev : Event) (rest : List Event) (q : ParseState)
    (hstep : step p ev = Except.ok q) : runSteps p (ev :: rest) = runSteps q rest := by
  rw [runSteps_cons, hstep]

theorem runSteps_append_ok (xs ys : List Event) (p q : ParseState)
    (hxs : runSteps p xs = Except.ok q) : runSteps p (xs ++ ys) = runSteps q ys := by
  rw [runSteps_append, hxs]

theorem runSteps_append_error (xs ys : List Event) (p : ParseState) (e : ParseError)
    (hxs : runSteps p xs = Except.error e) : runSteps p (xs ++ ys) = Except.error e := by
  rw [runSteps_append, hxs]

theorem runSteps_cons_error (p : ParseState) (ev : Event) (rest : List Event) (e : ParseError)
    (hstep : step p ev = Except.error e) : runSteps p (ev :: rest) = Except.error e := by
  rw [runSteps_cons, hstep]

theorem runSteps_frame (sub : List Event) (hB : Balanced sub) :
    ∀ (p p' : ParseState), runSteps p sub = Except.ok p' →
      p'.startElementStack = p.startElementStack ∧
      ∃ extra, p'.nodeStack = headAppendChildren p.nodeStack extra := by
  induction hB with
  | nil =>
    intro p p' h
    cases h
    exact ⟨rfl, [], (headAppendChildren_nil _).symm⟩
  | data s rest hrest ih =>
    intro p p' h
    obtain ⟨S, N, L⟩ := p
    by_cases hws : trimSpace s = []
    · rw [runSteps_cons_ok _ _ _ _ (step_charData_ws S N L s hws)] at h
      exact ih ⟨S, N, L + countNewlines s⟩ p' h
    · cases hscan : scan (trimSpace s) with
      | error e =>
        rw [runSteps_cons_error _ _ _ _ (step_charData_scanError S N L s e hws hscan)] at h
        cases h
      | ok segs =>
        cases N with
        | nil =>
          rw [runSteps_cons_error _ _ _ _ (step_charData_emptyN S L s segs hws hscan)] at h
          cases h
        | cons n ns =>
          rw [runSteps_cons_ok _ _ _ _ (step_charData_ok S n ns L s segs hws hscan)] at h
          obtain ⟨hS, ex, hN⟩ :=
            ih ⟨S, n.addChild (Node.data (trimSpace s) segs) :: ns, L + countNewlines s⟩ p' h
          refine ⟨hS, Node.data (trimSpace s) segs :: ex, ?_⟩
          rw [hN]
          simp only [headAppendChildren]
          rw [addChild_appendChildren]
  | comment s rest hrest ih =>
    intro p p' h
    obtain ⟨S, N, L⟩ := p
    rw [runSteps_cons_ok _ _ _ _ (step_comment S N L s)] at h
    exact ih ⟨S, N, L + countNewlines s⟩ p' h
  | elem e inner rest hinner hrest ihinner ihrest =>
    intro p p' h
    obtain ⟨S, N, L⟩ := p
    rw [runSteps_cons_ok _ _ _ _ (step_start S N L e)] at h
    cases hrun : runSteps ⟨e :: S, newNodeByStartElement e :: N, L⟩ inner with
    | error er => rw [runSteps_append_error _ _ _ _ hrun] at h; cases h
    | ok p2 =>
      rw [runSteps_append_ok _ _ _ _ hrun] at h
      obtain ⟨hS2, ex1, hN2⟩ := ihinner _ _ hrun
      obtain ⟨S2, N2, L2⟩ := p2
      simp only at hS2 hN2
      simp only [headAppendChildren] at hN2
      subst hS2
      subst hN2
      cases hemp : isEmptyNode ((newNodeByStartElement e).appendChildren ex1) with
      | true =>
        rw [runSteps_cons_ok _ _ _ _ (step_end_match_empty e S _ N L2 hemp)] at h
        exact ihrest ⟨S, N, L2⟩ p' h
      | false =>
        cases N with
        | nil =>
          rw [runSteps_cons_error _ _ _ _ (step_end_match_underflow e S _ L2 hemp)] at h
          cases h
        | cons parent ns =>
          rw [runSteps_cons_ok _ _ _ _ (step_end_match_attach e S _ parent ns L2 hemp)] at h
          obtain ⟨hS3, ex2, hN3⟩ :=
            ihrest ⟨S, parent.addChild ((newNodeByStartElement e).appendChildren ex1) :: ns, L2⟩
              p' h
          refine ⟨hS3, (newNodeByStartElement e).appendChildren ex1 :: ex2, ?_⟩
          rw [hN3]
          simp only [headAppendChildren]
          rw [addChild_appendChildren]

/-! ### Parse-level helper lemmas -/

theorem parseLoop_cons_ok (p : ParseState) (ev : Event) (rest : List Event) (q : ParseState)
    (hstep : step p ev = Except.ok q) : parseLoop p (ev :: rest) = parseLoop q rest := by
  rw [show parseLoop p (ev :: rest) =
      (match step p ev with
       | Except.error e => Except.error e
       | Except.ok p1 => parseLoop p1 rest) from rfl, hstep]

theorem parseLoop_cons_error (p : ParseState) (ev : Event) (rest : List Event) (e : ParseError)
    (hstep : step p ev = Except.error e) : parseLoop p (ev :: rest) = Except.error e := by
  rw [show parseLoop p (ev :: rest) =
      (match step p ev with
       | Except.error e => Except.error e
       | Except.ok p1 => parseLoop p1 rest) from rfl, hstep]

theorem parseLoop_append_ok (xs ys : List Event) (p q : ParseState)
    (hxs : runSteps p xs = Except.ok q) : parseLoop p (xs ++ ys) = parseLoop q ys := by
  rw [parseLoop_eq_runSteps (xs ++ ys) p, runSteps_append_ok xs ys p q hxs,
    ← parseLoop_eq_runSteps ys q]

theorem parseLoop_append_error (xs ys : List Event) (p : ParseState) (e : ParseError)
    (hxs : runSteps p xs = Except.error e) : parseLoop p (xs ++ ys) = Except.error e := by
  rw [parseLoop_eq_runSteps (xs ++ ys) p, runSteps_append_error xs ys p e hxs]

theorem parse_eq_finish (evs : List Event) (p : ParseState)
    (h : runSteps initState evs = Except.ok p) : parse evs = finish p := by
  rw [parse, parseLoop_eq_runSteps, h]

theorem parse_error_of_runSteps (evs : List Event) (e : ParseError)
    (h : runSteps initState evs = Except.error e) : parse evs = Except.error e := by
  rw [parse, parseLoop_eq_runSteps, h]

theorem finish_open (S : List StartElement) (N : List Node) (L : Nat)
    (top : StartElement) (rest : List StartElement) (h : S = top :: rest) :
    finish ⟨S, N, L⟩ = Except.error (ParseError.unterminatedElement top.name) := by
  subst h; rfl

theorem reachable_inv (evs : List Event) (p : ParseState)
    (h : runSteps initState evs = Except.ok p) : Inv p :=
  runSteps_inv evs initState p initState_inv h

theorem inv_root_shape (p : ParseState) (hI : Inv p) (hS : p.startElementStack = []) :
    ∃ c, p.nodeStack = [Node.elem NodeKind.root [] c] := by
  obtain ⟨hlen, ⟨c, hroot⟩, _⟩ := hI
  rw [hS] at hlen
  cases hN : p.nodeStack with
  | nil => rw [hN] at hlen; simp at hlen
  | cons n ns =>
    cases ns with
    | nil =>
      rw [hN] at hroot
      simp only [List.getLast?, Option.some.injEq] at hroot
      have hn : n = Node.elem NodeKind.root [] c := hroot
      exact ⟨c, by rw [hn]⟩
    | cons m ms => rw [hN] at hlen; simp at hlen

theorem newNode_unknown (e : StartElement) (h : knownName e.name = false) :
    newNodeByStartElement e = Node.elem NodeKind.empty [] [] := by
  unfold newNodeByStartElement
  split <;> simp_all [knownName]

theorem step_not_nse (p : ParseState) (ev : Event) (hI : Inv p) :
    isNodeStackEmptyError (step p ev) = false := by
  obtain ⟨S, N, L⟩ := p
  obtain ⟨hlen, _, _⟩ := hI
  cases ev with
  | startElement e => rw [step_start]; rfl
  | endElement name =>
    cases S with
    | nil => rw [step_end_emptyStack]; rfl
    | cons top restS =>
      by_cases hname : name = top.name
      · subst hname
        cases N with
        | nil => rw [step_end_match_emptyN]; rfl
        | cons popNode restN =>
          cases hemp : isEmptyNode popNode with
          | true => rw [step_end_match_empty top restS popNode restN L hemp]; rfl
          | false =>
            cases restN with
            | nil => rw [step_end_match_underflow top restS popNode L hemp]; rfl
            | cons parent ns =>
              rw [step_end_match_attach top restS popNode parent ns L hemp]; rfl
      · rw [step_end_mismatch top restS N L name hname]; rfl
  | charData s =>
    by_cases hws : trimSpace s = []
    · rw [step_charData_ws S N L s hws]; rfl
    · cases hscan : scan (trimSpace s) with
      | error e => rw [step_charData_scanError S N L s e hws hscan]; rfl
      | ok segs =>
        cases N with
        | nil => simp at hlen
        | cons n ns => rw [step_charData_ok S n ns L s segs hws hscan]; rfl
  | comment s => rw [step_comment]; rfl

theorem runSteps_not_nse (evs : List Event) :
    ∀ (p : ParseState), Inv p → isNodeStackEmptyError (runSteps p evs) = false := by
  induction evs with
  | nil => intro p _; rfl
  | cons ev evs' ih =>
    intro p hI
    cases hstep : step p ev with
    | error e =>
      rw [runSteps_cons_error p ev evs' e hstep]
      have h2 := step_not_nse p ev hI
      rw [hstep] at h2
      exact h2
    | ok p1 =>
      rw [runSteps_cons_ok p ev evs' p1 hstep]
      exact ih p1 (step_inv p ev p1 hI hstep)

theorem trimSpace_eq_nil_of_all (l : List Char) (h : ∀ c ∈ l, isSpaceChar c = true) :
    trimSpace l = [] := by
  have h1 : l.dropWhile isSpaceChar = [] := List.dropWhile_eq_nil_iff.mpr h
  rw [trimSpace, h1]
  rfl

/-! ### Claim theorems -/

/-- Claim C1: for every input event stream, after the builder processes each
event, the node stack is exactly one longer than the element stack, and the
Root node sits permanently at Go slice index 0 of the node stack (the last
entry of the model's top-first list), only ever gaining children. -/
theorem claim_c1 (evs : List Event) (p : ParseState)
    (h : runSteps initState evs = Except.ok p) :
    p.nodeStack.length = p.startElementStack.length + 1 ∧
    ∃ c, p.nodeStack.getLast? = some (Node.elem NodeKind.root [] c) := by
  obtain ⟨h1, h2, _⟩ := reachable_inv evs p h
  exact ⟨h1, h2⟩

/-- Witness for C1 at a concrete event stream. -/
theorem claim_c1_witness :
    runSteps initState [Event.startElement ⟨"select", []⟩] =
      Except.ok ⟨[⟨"select", []⟩],
        [Node.elem (NodeKind.query "select") [] [], Node.elem NodeKind.root [] []], 0⟩ ∧
    ((⟨[⟨"select", []⟩],
        [Node.elem (NodeKind.query "select") [] [], Node.elem NodeKind.root [] []], 0⟩ :
          ParseState).nodeStack.length =
      (⟨[⟨"select", []⟩],
        [Node.elem (NodeKind.query "select") [] [], Node.elem NodeKind.root [] []], 0⟩ :
          ParseState).startElementStack.length + 1 ∧
      ∃ c, (⟨[⟨"select", []⟩],
        [Node.elem (NodeKind.query "select") [] [], Node.elem NodeKind.root [] []], 0⟩ :
          ParseState).nodeStack.getLast? = some (Node.elem NodeKind.root [] c)) :=
  ⟨rfl, claim_c1 [Event.startElement ⟨"select", []⟩] _ rfl⟩

/-- Claim C2: an element whose name is not in the dispatch table is built as
an Empty node; a well-formed unknown-element subtree contributes nothing to
the parse result (removing it leaves the returned tree unchanged); and no
Empty node ever occurs anywhere in the returned tree, in particular never
as a child of any node. -/
theorem claim_c2 :
    (∀ e : StartElement, knownName e.name = false →
      newNodeByStartElement e = Node.elem NodeKind.empty [] []) ∧
    (∀ (u : StartElement) (a sub b : List Event) (t : Node), knownName u.name = false →
      Balanced sub →
      parse (a ++ Event.startElement u :: (sub ++ Event.endElement u.name :: b)) =
        Except.ok t →
      parse (a ++ b) = Except.ok t) ∧
    (∀ (evs : List Event) (t : Node), parse evs = Except.ok t → hasNoEmpty t = true) := by
  refine ⟨newNode_unknown, ?_, ?_⟩
  · intro u a sub b t hu hB hfull
    cases hra : runSteps initState a with
    | error e =>
      rw [show parse (a ++ Event.startElement u :: (sub ++ Event.endElement u.name :: b)) =
          parseLoop initState (a ++ Event.startElement u :: (sub ++ Event.endElement u.name :: b))
          from rfl] at hfull
      rw [parseLoop_append_error _ _ _ _ hra] at hfull
      cases hfull
    | ok pa =>
      rw [show parse (a ++ Event.startElement u :: (sub ++ Event.endElement u.name :: b)) =
          parseLoop initState (a ++ Event.startElement u :: (sub ++ Event.endElement u.name :: b))
          from rfl] at hfull
      rw [parseLoop_append_ok _ _ _ _ hra] at hfull
      obtain ⟨Sa, Na, La⟩ := pa
      rw [parseLoop_cons_ok _ _ _ _ (step_start Sa Na La u)] at hfull
      cases hrs : runSteps ⟨u :: Sa, newNodeByStartElement u :: Na, La⟩ sub with
      | error e =>
        rw [parseLoop_append_error _ _ _ _ hrs] at hfull
        cases hfull
      | ok p2 =>
        rw [parseLoop_append_ok _ _ _ _ hrs] at hfull
        obtain ⟨hS2, ex1, hN2⟩ := runSteps_frame sub hB _ _ hrs
        obtain ⟨S2, N2, L2⟩ := p2
        simp only at hS2 hN2
        simp only [headAppendChildren] at hN2
        subst hS2
        subst hN2
        have hemp : isEmptyNode ((newNodeByStartElement u).appendChildren ex1) = true := by
          rw [isEmptyNode_appendChildren, newNode_unknown u hu]
          rfl
        rw [parseLoop_cons_ok _ _ _ _ (step_end_match_empty u Sa _ Na L2 hemp)] at hfull
        rw [show parse (a ++ b) = parseLoop initState (a ++ b) from rfl]
        rw [parseLoop_append_ok a b initState ⟨Sa, Na, La⟩ hra]
        rw [parseLoop_line b Sa Na La L2]
        exact hfull
  · intro evs t h
    cases hr : runSteps initState evs with
    | error e =>
      rw [show parse evs = parseLoop initState evs from rfl, parseLoop_eq_runSteps, hr] at h
      cases h
    | ok p =>
      rw [parse_eq_finish evs p hr] at h
      have hI := reachable_inv evs p hr
      obtain ⟨S, N, L⟩ := p
      cases hS : S with
      | cons top rest =>
        rw [finish_open S N L top rest hS] at h
        cases h
      | nil =>
        obtain ⟨c, hshape⟩ := inv_root_shape ⟨S, N, L⟩ hI (by rw [hS])
        simp only at hshape
        obtain ⟨_, _, hclean⟩ := hI
        simp only at hclean
        rw [hshape] at hclean
        rw [List.all_cons, Bool.and_eq_true] at hclean
        obtain ⟨hcleanRoot, _⟩ := hclean
        subst hS
        rw [show finish ⟨[], N, L⟩ =
            Except.ok (N.getLastD (Node.elem NodeKind.root [] [])) from rfl] at h
        rw [hshape] at h
        simp only [List.getLastD, Option.getD] at h
        cases h
        have hunfold : hasNoEmpty (Node.elem NodeKind.root [] c) =
            ((!NodeKind.root.isEmptyKind) && hasNoEmptyList c) := rfl
        show hasNoEmpty (Node.elem NodeKind.root [] c) = true
        rw [hunfold]
        rw [cleanChildren] at hcleanRoot
        rw [hcleanRoot]
        rfl

/-- Witness for C2 at a concrete unknown element with a data child. -/
theorem claim_c2_witness :
    newNodeByStartElement ⟨"foo", []⟩ = Node.elem NodeKind.empty [] [] ∧
    parse ([] ++ Event.startElement ⟨"foo", []⟩ ::
        ([Event.charData ['x']] ++ Event.endElement "foo" :: [])) =
      Except.ok (Node.elem NodeKind.root [] []) ∧
    parse ([] ++ []) = Except.ok (Node.elem NodeKind.root [] []) ∧
    hasNoEmpty (Node.elem NodeKind.root [] []) = true := by
  refine ⟨claim_c2.1 ⟨"foo", []⟩ rfl, rfl, ?_, ?_⟩
  · exact claim_c2.2.1 ⟨"foo", []⟩ [] [Event.charData ['x']] [] (Node.elem NodeKind.root [] [])
      rfl (Balanced.data ['x'] [] Balanced.nil) rfl
  · exact claim_c2.2.2 [] (Node.elem NodeKind.root [] []) rfl

/-- Claim C3: an end-element with an empty element stack fails with
UnexpectedEndElement; a name differing from the top of the element stack
fails with TagMismatch whose message names the expected and the actual tag;
otherwise both stacks are popped and a non-Empty popped node is appended as
the last child of the new top of the node stack. -/
theorem claim_c3 (p : ParseState) (name : String) :
    (p.startElementStack = [] →
      step p (Event.endElement name) = Except.error (ParseError.unexpectedEndElement name)) ∧
    (∀ top restS, p.startElementStack = top :: restS → name ≠ top.name →
      step p (Event.endElement name) = Except.error (ParseError.tagMismatch top.name name) ∧
      ∃ s1 s2 s3, (ParseError.tagMismatch top.name name).message =
        s1 ++ top.name ++ s2 ++ name ++ s3) ∧
    (∀ top restS popNode parent ns, p.startElementStack = top :: restS → name = top.name →
      p.nodeStack = popNode :: parent :: ns → isEmptyNode popNode = false →
      step p (Event.endElement name) =
        Except.ok ⟨restS, parent.addChild popNode :: ns, p.currentLine⟩) ∧
    (∀ (k : NodeKind) (a : List (String × String)) (c : List Node) (child : Node),
      (Node.elem k a c).addChild child = Node.elem k a (c ++ [child])) := by
  obtain ⟨S, N, L⟩ := p
  refine ⟨?_, ?_, ?_, fun k a c child => rfl⟩
  · intro hS
    simp only at hS
    subst hS
    exact step_end_emptyStack N L name
  · intro top restS hS hne
    simp only at hS
    subst hS
    refine ⟨step_end_mismatch top restS N L name hne,
      "expected to read the name of end element is \"", "\", but got \"", "\"", rfl⟩
  · intro top restS popNode parent ns hS hname hN hemp
    simp only at hS hN
    subst hS
    subst hN
    subst hname
    exact step_end_match_attach top restS popNode parent ns L hemp

/-- Witness for C3 at concrete states and names. -/
theorem claim_c3_witness :
    step ⟨[], [Node.elem NodeKind.root [] []], 0⟩ (Event.endElement "x") =
      Except.error (ParseError.unexpectedEndElement "x") ∧
    (step ⟨[⟨"select", []⟩], [Node.elem (NodeKind.query "select") [] [],
        Node.elem NodeKind.root [] []], 0⟩ (Event.endElement "update") =
      Except.error (ParseError.tagMismatch "select" "update") ∧
      ∃ s1 s2 s3, (ParseError.tagMismatch "select" "update").message =
        s1 ++ "select" ++ s2 ++ "update" ++ s3) ∧
    step ⟨[⟨"select", []⟩], [Node.elem (NodeKind.query "select") [] [],
        Node.elem NodeKind.root [] []], 0⟩ (Event.endElement "select") =
      Except.ok ⟨[], [Node.elem NodeKind.root []
        [Node.elem (NodeKind.query "select") [] []]], 0⟩ := by
  refine ⟨(claim_c3 ⟨[], [Node.elem NodeKind.root [] []], 0⟩ "x").1 rfl, ?_, ?_⟩
  · exact (claim_c3 ⟨[⟨"select", []⟩], [Node.elem (NodeKind.query "select") [] [],
      Node.elem NodeKind.root [] []], 0⟩ "update").2.1 ⟨"select", []⟩ []
      rfl (by decide)
  · exact (claim_c3 ⟨[⟨"select", []⟩], [Node.elem (NodeKind.query "select") [] [],
      Node.elem NodeKind.root [] []], 0⟩ "select").2.2.1 ⟨"select", []⟩ []
      (Node.elem (NodeKind.query "select") [] []) (Node.elem NodeKind.root [] []) []
      rfl rfl rfl rfl

/-- Claim C4: end of input with an empty element stack returns the Root
node; with a non-empty element stack the parse fails with
UnterminatedElement whose message names the innermost still-open element. -/
theorem claim_c4 (evs : List Event) (p : ParseState)
    (h : runSteps initState evs = Except.ok p) :
    (p.startElementStack = [] → ∃ c, parse evs = Except.ok (Node.elem NodeKind.root [] c)) ∧
    (∀ top rest, p.startElementStack = top :: rest →
      parse evs = Except.error (ParseError.unterminatedElement top.name) ∧
      ∃ s1 s2, (ParseError.unterminatedElement top.name).message = s1 ++ top.name ++ s2) := by
  constructor
  · intro hS
    obtain ⟨c, hshape⟩ := inv_root_shape p (reachable_inv evs p h) hS
    refine ⟨c, ?_⟩
    rw [parse_eq_finish evs p h]
    obtain ⟨S, N, L⟩ := p
    simp only at hS hshape
    subst hS
    subst hshape
    rfl
  · intro top rest hS
    obtain ⟨S, N, L⟩ := p
    simp only at hS
    refine ⟨?_, "expected to read the end element of \"", "\", but got EOF", rfl⟩
    rw [parse_eq_finish evs _ h, finish_open S N L top rest hS]

/-- Witness for C4: a closed stream returns the root; an open stream fails
naming the innermost open element. -/
theorem claim_c4_witness :
    (∃ c, parse [] = Except.ok (Node.elem NodeKind.root [] c)) ∧
    (parse [Event.startElement ⟨"mapper", []⟩, Event.startElement ⟨"select", []⟩] =
      Except.error (ParseError.unterminatedElement "select") ∧
      ∃ s1 s2, (ParseError.unterminatedElement "select").message = s1 ++ "select" ++ s2) := by
  constructor
  · exact (claim_c4 [] initState rfl).1 rfl
  · exact (claim_c4 [Event.startElement ⟨"mapper", []⟩, Event.startElement ⟨"select", []⟩]
      ⟨[⟨"select", []⟩, ⟨"mapper", []⟩],
        [Node.elem (NodeKind.query "select") [] [], Node.elem NodeKind.mapper [] [],
          Node.elem NodeKind.root [] []], 0⟩ rfl).2 ⟨"select", []⟩ [⟨"mapper", []⟩] rfl

/-- Claim C5: the tokenizer yields an empty segment sequence on empty
input, one Literal equal to the input when no opener occurs, and at each
opener the preceding plain run (if any) as a Literal followed by a
Placeholder with the raw inner text and the opener's style. -/
theorem claim_c5 :
    scan [] = Except.ok [] ∧
    (∀ l : List Char, openerFree l = true → l ≠ [] →
      scan l = Except.ok [Segment.literal (String.mk l)]) ∧
    (∀ pre inner rest : List Char, openerFree pre = true → '}' ∉ inner →
      scan (pre ++ '#' :: '{' :: (inner ++ '}' :: rest)) =
        Except.map (fun segs =>
          (if pre = [] then [] else [Segment.literal (String.mk pre)]) ++
            Segment.placeholder (String.mk inner) Style.bind :: segs) (scan rest)) ∧
    (∀ pre inner rest : List Char, openerFree pre = true → '}' ∉ inner →
      scan (pre ++ '$' :: '{' :: (inner ++ '}' :: rest)) =
        Except.map (fun segs =>
          (if pre = [] then [] else [Segment.literal (String.mk pre)]) ++
            Segment.placeholder (String.mk inner) Style.substitution :: segs) (scan rest)) := by
  refine ⟨rfl, ?_, ?_, ?_⟩
  · intro l h hne
    rw [scan_openerFree l h, if_neg hne]
  · intro pre inner rest hp hi
    rw [scan_opener pre inner rest '#' (by decide) hp hi]
    rfl
  · intro pre inner rest hp hi
    rw [scan_opener pre inner rest '$' (by decide) hp hi]
    rfl

/-- Witness for C5 at the spec's concrete inputs. -/
theorem claim_c5_witness :
    scan [] = Except.ok [] ∧
    scan ("SELECT * FROM t".data) =
      Except.ok [Segment.literal (String.mk "SELECT * FROM t".data)] ∧
    scan ("WHERE id = ".data ++ '#' :: '{' :: ("id".data ++ '}' :: [])) =
      Except.map (fun segs =>
        (if ("WHERE id = ".data : List Char) = [] then []
         else [Segment.literal (String.mk "WHERE id = ".data)]) ++
          Segment.placeholder (String.mk "id".data) Style.bind :: segs) (scan []) ∧
    scan ("ORDER BY ".data ++ '$' :: '{' :: ("col".data ++ '}' :: [])) =
      Except.map (fun segs =>
        (if ("ORDER BY ".data : List Char) = [] then []
         else [Segment.literal (String.mk "ORDER BY ".data)]) ++
          Segment.placeholder (String.mk "col".data) Style.substitution :: segs) (scan []) :=
  ⟨claim_c5.1,
   claim_c5.2.1 "SELECT * FROM t".data (by decide) (by decide),
   claim_c5.2.2.1 "WHERE id = ".data "id".data [] (by decide) (by decide),
   claim_c5.2.2.2 "ORDER BY ".data "col".data [] (by decide) (by decide)⟩

/-- Claim C6: an opener with no matching close brace before the chunk ends
makes the tokenizer fail with UnterminatedPlaceholder, and the builder
surfaces that failure as a DataScanError wrapping it, aborting the parse. -/
theorem claim_c6 :
    (∀ pre t : List Char, openerFree pre = true → '}' ∉ t →
      scan (pre ++ '#' :: '{' :: t) = Except.error ScanError.unterminatedPlaceholder) ∧
    (∀ pre t : List Char, openerFree pre = true → '}' ∉ t →
      scan (pre ++ '$' :: '{' :: t) = Except.error ScanError.unterminatedPlaceholder) ∧
    (∀ (p : ParseState) (s : List Char) (e : ScanError), trimSpace s ≠ [] →
      scan (trimSpace s) = Except.error e →
      step p (Event.charData s) = Except.error (ParseError.dataScanError e)) ∧
    (∀ (p : ParseState) (s : List Char) (e : ScanError) (rest : List Event),
      trimSpace s ≠ [] → scan (trimSpace s) = Except.error e →
      parseLoop p (Event.charData s :: rest) = Except.error (ParseError.dataScanError e)) := by
  refine ⟨?_, ?_, ?_, ?_⟩
  · intro pre t hp ht
    exact scan_opener_unterminated pre t '#' (by decide) hp ht
  · intro pre t hp ht
    exact scan_opener_unterminated pre t '$' (by decide) hp ht
  · intro p s e hws hscan
    obtain ⟨S, N, L⟩ := p
    exact step_charData_scanError S N L s e hws hscan
  · intro p s e rest hws hscan
    obtain ⟨S, N, L⟩ := p
    exact parseLoop_cons_error _ _ rest _ (step_charData_scanError S N L s e hws hscan)

/-- Witness for C6 at the spec's unterminated-placeholder input. -/
theorem claim_c6_witness :
    scan ("x = ".data ++ '#' :: '{' :: "id".data) =
      Except.error ScanError.unterminatedPlaceholder ∧
    scan ("a".data ++ '$' :: '{' :: "col".data) =
      Except.error ScanError.unterminatedPlaceholder ∧
    step initState (Event.charData ("x = ".data ++ '#' :: '{' :: "id".data)) =
      Except.error (ParseError.dataScanError ScanError.unterminatedPlaceholder) ∧
    parseLoop initState [Event.charData ("x = ".data ++ '#' :: '{' :: "id".data)] =
      Except.error (ParseError.dataScanError ScanError.unterminatedPlaceholder) :=
  ⟨claim_c6.1 "x = ".data "id".data (by decide) (by decide),
   claim_c6.2.1 "a".data "col".data (by decide) (by decide),
   claim_c6.2.2.1 initState ("x = ".data ++ '#' :: '{' :: "id".data)
     ScanError.unterminatedPlaceholder (by decide) rfl,
   claim_c6.2.2.2 initState ("x = ".data ++ '#' :: '{' :: "id".data)
     ScanError.unterminatedPlaceholder [] (by decide) rfl⟩

/-- Claim C7: whitespace-only character data produces no node at all and
leaves the stacks untouched (only the line counter may advance), while
non-whitespace character data yields exactly one Data node carrying the
trimmed bytes, appended as a child of the top of the node stack without
being pushed onto either stack; whitespace means spaces, tabs, newlines. -/
theorem claim_c7 (p : ParseState) (s : List Char) :
    (trimSpace s = [] →
      step p (Event.charData s) =
        Except.ok ⟨p.startElementStack, p.nodeStack, p.currentLine + countNewlines s⟩) ∧
    (∀ segs n ns, trimSpace s ≠ [] → scan (trimSpace s) = Except.ok segs →
      p.nodeStack = n :: ns →
      step p (Event.charData s) =
        Except.ok ⟨p.startElementStack,
          n.addChild (Node.data (trimSpace s) segs) :: ns, p.currentLine + countNewlines s⟩) ∧
    (∀ l : List Char, (∀ c ∈ l, c = ' ' ∨ c = '\t' ∨ c = '\n') → trimSpace l = []) := by
  obtain ⟨S, N, L⟩ := p
  refine ⟨?_, ?_, ?_⟩
  · intro h
    exact step_charData_ws S N L s h
  · intro segs n ns h1 h2 hN
    simp only at hN
    subst hN
    exact step_charData_ok S n ns L s segs h1 h2
  · intro l hl
    apply trimSpace_eq_nil_of_all
    intro ch hch
    rcases hl ch hch with rfl | rfl | rfl <;> rfl

/-- Witness for C7: whitespace-only and plain character data at the initial
state. -/
theorem claim_c7_witness :
    step initState (Event.charData [' ', '\t', '\n']) =
      Except.ok ⟨initState.startElementStack, initState.nodeStack,
        initState.currentLine + countNewlines [' ', '\t', '\n']⟩ ∧
    step initState (Event.charData ['a']) =
      Except.ok ⟨initState.startElementStack,
        (Node.elem NodeKind.root [] []).addChild
          (Node.data (trimSpace ['a']) [Segment.literal "a"]) :: [],
        initState.currentLine + countNewlines ['a']⟩ ∧
    trimSpace [' ', '\t', '\n'] = [] :=
  ⟨(claim_c7 initState [' ', '\t', '\n']).1 (by decide),
   (claim_c7 initState ['a']).2.1 [Segment.literal "a"] (Node.elem NodeKind.root [] []) []
     (by decide) rfl rfl,
   (claim_c7 initState ['a']).2.2 [' ', '\t', '\n'] (by decide)⟩

/-- Claim C8: the current-line counter advances by exactly the newline
count of the raw chunk on character-data and comment events, by zero on
every other event, and is monotonically non-decreasing over the parse. -/
theorem claim_c8 :
    (∀ s, lineDelta (Event.charData s) = countNewlines s) ∧
    (∀ s, lineDelta (Event.comment s) = countNewlines s) ∧
    (∀ e, lineDelta (Event.startElement e) = 0) ∧
    (∀ n, lineDelta (Event.endElement n) = 0) ∧
    (∀ (p : ParseState) (ev : Event) (p' : ParseState), step p ev = Except.ok p' →
      p'.currentLine = p.currentLine + lineDelta ev) ∧
    (∀ (evs : List Event) (p p' : ParseState), runSteps p evs = Except.ok p' →
      p.currentLine ≤ p'.currentLine) :=
  ⟨fun _ => rfl, fun _ => rfl, fun _ => rfl, fun _ => rfl, step_delta, runSteps_mono⟩

/-- Witness for C8 at a concrete newline-bearing chunk. -/
theorem claim_c8_witness :
    (⟨[], [Node.elem NodeKind.root [] []], 0 + countNewlines ['\n', 'x', '\n']⟩ :
        ParseState).currentLine =
      initState.currentLine + lineDelta (Event.comment ['\n', 'x', '\n']) ∧
    initState.currentLine ≤ initState.currentLine :=
  ⟨claim_c8.2.2.2.2.1 initState (Event.comment ['\n', 'x', '\n'])
      ⟨[], [Node.elem NodeKind.root [] []], 0 + countNewlines ['\n', 'x', '\n']⟩ rfl,
   claim_c8.2.2.2.2.2 [] initState initState rfl⟩

/-- Claim C9: the character-data arm's node-stack-empty error branch is
unreachable: no event stream can make the builder return it, because the
balance invariant keeps the Root node on the node stack at all times. -/
theorem claim_c9 (evs : List Event) :
    isNodeStackEmptyError (runSteps initState evs) = false ∧
    isNodeStackEmptyError (parse evs) = false := by
  refine ⟨runSteps_not_nse evs initState initState_inv, ?_⟩
  cases hr : runSteps initState evs with
  | error e =>
    have h1 := runSteps_not_nse evs initState initState_inv
    rw [hr] at h1
    rw [parse_error_of_runSteps evs e hr]
    cases e <;> exact h1
  | ok p =>
    rw [parse_eq_finish evs p hr]
    obtain ⟨S, N, L⟩ := p
    cases S with
    | nil => rfl
    | cons top rest => rfl

/-- Claim C10: non-whitespace character data arriving while no element is
open does not make the builder fail; the Data node is appended directly as
a child of the Root node. -/
theorem claim_c10 (evs : List Event) (p : ParseState) (s : List Char) (segs : List Segment)
    (h : runSteps initState evs = Except.ok p) (hS : p.startElementStack = [])
    (hws : trimSpace s ≠ []) (hscan : scan (trimSpace s) = Except.ok segs) :
    ∃ c, p.nodeStack = [Node.elem NodeKind.root [] c] ∧
      step p (Event.charData s) =
        Except.ok ⟨[], [Node.elem NodeKind.root [] (c ++ [Node.data (trimSpace s) segs])],
          p.currentLine + countNewlines s⟩ := by
  obtain ⟨c, hshape⟩ := inv_root_shape p (reachable_inv evs p h) hS
  refine ⟨c, hshape, ?_⟩
  obtain ⟨S, N, L⟩ := p
  simp only at hS hshape
  subst hS
  subst hshape
  rw [step_charData_ok [] (Node.elem NodeKind.root [] c) [] L s segs hws hscan]
  rfl

/-- Witness for C10: character data at the top level of the document. -/
theorem claim_c10_witness :
    ∃ c, initState.nodeStack = [Node.elem NodeKind.root [] c] ∧
      step initState (Event.charData "abc".data) =
        Except.ok ⟨[], [Node.elem NodeKind.root []
            (c ++ [Node.data (trimSpace "abc".data) [Segment.literal "abc"]])],
          initState.currentLine + countNewlines "abc".data⟩ :=
  claim_c10 [] initState "abc".data [Segment.literal "abc"] rfl rfl (by decide) rfl

end Mybatis
